import Mathlib

/-!
Verification of the kronjob aggregation/validation core.

The repository holds two historical variants of the aggregation engine:

* `kronjob.py` (the "Py" variant below): `_build_aggregate_jobs` expands the
  cross product of `jobs` and `namespaces`, applying per-namespace override
  fragments taken from `namespace_overrides`.  Note: the marshmallow schema
  loads camelCase input keys (`namespaceOverrides`) into snake_case keys, so
  the dictionaries reaching `_build_aggregate_jobs` use snake_case keys; the
  embedding follows that convention.
* `kronjob/_kronjob.py` (the "Pkg" variant below): `_build_aggregate_jobs`
  only expands the `jobs` axis, and `_validate_aggregate_job` /
  `build_k8s_objects` validate each resolved record.

Abstract jobs are YAML/JSON-like trees; we embed them as association lists
of string keys and `Value`s, with Python dict semantics (first-match lookup,
`update` iterates the argument and sets each key, keys of genuine Python
dicts are unique).  Fallible Python code (TypeError/AttributeError on
ill-typed values) is embedded with `Option`: `none` models an exception
aborting the call.
-/

/-- A YAML/JSON-like scalar or container value, as manipulated by the Python
code (strings, ints, bools, lists, and string-keyed mappings).  YAML nulls
never reach the aggregation core (the schema rejects them), so they are not
modelled. -/
inductive Value where
  | vs : String → Value
  | vi : Int → Value
  | vb : Bool → Value
  | vlist : List Value → Value
  | vdict : List (String × Value) → Value
deriving Repr

/-- A Python dict with string keys, as an association list in insertion
order. -/
abbrev Dict := List (String × Value)

/-- First-result choice on options (`a if a is not None else b`). -/
def oor {α : Type} (a b : Option α) : Option α :=
  match a with
  | some v => some v
  | none => b

/-- `d.get(k)`: first binding of `k` in `d`. -/
def dget : Dict → String → Option Value
  | [], _ => none
  | (k1, v) :: rest, k => if k1 = k then some v else dget rest k

/-- `k in d`. -/
def dcontains (d : Dict) (k : String) : Bool :=
  (dget d k).isSome

/-- `d[k] = v`: replace the binding of `k` in place, or append it. -/
def dset : Dict → String → Value → Dict
  | [], k, v => [(k, v)]
  | (k1, v1) :: rest, k, v =>
    if k1 = k then (k, v) :: rest else (k1, v1) :: dset rest k v

/-- `d.pop(k, default)`'s effect on `d`: remove the binding of `k`. -/
def dpop (d : Dict) (k : String) : Dict :=
  d.filter (fun p => decide (p.1 ≠ k))

/-- `d.update(e)`: iterate `e` in order and set each binding on `d`. -/
def dupdate (d : Dict) (e : Dict) : Dict :=
  e.foldl (fun acc p => dset acc p.1 p.2) d

/-- Python truthiness of a value, as used by `filter(None, ...)`. -/
def truthy : Value → Bool
  | .vs s => s ≠ ""
  | .vi n => n ≠ 0
  | .vb b => b
  | .vlist l => !l.isEmpty
  | .vdict d => !d.isEmpty

/-- Extract a string; non-strings make `str.join` raise `TypeError`. -/
def toStr : Value → Option String
  | .vs s => some s
  | _ => none

/-- `Option`-valued `mapM` over lists (explicit recursion, so proofs can
induct on the list). -/
def omapM {α β : Type} (f : α → Option β) : List α → Option (List β)
  | [] => some []
  | a :: rest =>
    match f a, omapM f rest with
    | some b, some bs => some (b :: bs)
    | _, _ => none

/-- The truthy values among an ordered tuple of optional lookups:
`filter(None, (x, y, z))`. -/
def keptParts (parts : List (Option Value)) : List Value :=
  (parts.filterMap id).filter truthy

/-- `'-'.join(filter(None, parts))`; `none` when a kept part is not a
string (Python raises `TypeError`). -/
def joinNameParts (parts : List (Option Value)) : Option String :=
  match omapM toStr (keptParts parts) with
  | some strs => some (String.intercalate "-" strs)
  | none => none

/-- The `name` recomputation step shared by both variants:
`if 'name' in aggregate_job: aggregate_job['name'] = '-'.join(filter(None, parts))`. -/
def nameStep (agg : Dict) (parts : List (Option Value)) : Option Dict :=
  if dcontains agg "name" then
    match joinNameParts parts with
    | some s => some (dset agg "name" (.vs s))
    | none => none
  else some agg

/-- `d.get('env', [])` as a list; `none` when the value is not a list
(Python list concatenation raises `TypeError`). -/
def envOf (d : Dict) : Option (List Value) :=
  match dget d "env" with
  | none => some []
  | some (.vlist l) => some l
  | some _ => none

/-- Py-variant `env` step:
`aggregate_job['env'] = base_job.get('env', []) + _namespace_override.get('env', []) + _job.get('env', [])`. -/
def envStepPy (agg base ovr jd : Dict) : Option Dict :=
  if dcontains agg "env" then
    match envOf base, envOf ovr, envOf jd with
    | some a, some b, some c => some (dset agg "env" (.vlist (a ++ b ++ c)))
    | _, _, _ => none
  else some agg

/-- Pkg-variant `env` step:
`aggregate_job['env'] = base_job.get('env', []) + job.get('env', [])`. -/
def envStepPkg (agg base jd : Dict) : Option Dict :=
  if dcontains agg "env" then
    match envOf base, envOf jd with
    | some a, some c => some (dset agg "env" (.vlist (a ++ c)))
    | _, _ => none
  else some agg

/-- `_job = job if job is not None else {}`, requiring a mapping (a
non-mapping job fragment raises `AttributeError` at `_job.get`). -/
def jobDictOf : Option Value → Option Dict
  | none => some []
  | some (.vdict d) => some d
  | some _ => none

/-- Effective namespace resolution (Py variant):
`_job.get('namespace', namespace if namespace is not None else base_namespace)`. -/
def effNamespace (jd : Dict) (ns bns : Option Value) : Option Value :=
  oor (dget jd "namespace") (oor ns bns)

/-- Lookup inside the `namespace_overrides` mapping:
`namespace_overrides.get(_namespace, {})`.  An unhashable key (list/dict)
raises `TypeError`; an override value that is not a mapping breaks the
subsequent `update`/`get` calls on it. -/
def lookupIn (d : Dict) (effNs : Option Value) : Option Dict :=
  match effNs with
  | some (.vlist _) => none
  | some (.vdict _) => none
  | some (.vs s) =>
    match dget d s with
    | none => some []
    | some (.vdict o) => some o
    | some _ => none
  | _ => some []

/-- `namespace_overrides.get(_namespace, {})`, where `namespace_overrides`
was popped with default `{}`; a popped value that is not a mapping has no
`.get` (`AttributeError`). -/
def lookupOverride (nsOV : Option Value) (effNs : Option Value) : Option Dict :=
  match nsOV with
  | none => lookupIn [] effNs
  | some (.vdict d) => lookupIn d effNs
  | some _ => none

/-- `if _namespace is not None: aggregate_job['namespace'] = _namespace`. -/
def nsSet (agg : Dict) (effNs : Option Value) : Dict :=
  match effNs with
  | some v => dset agg "namespace" v
  | none => agg

/-- The ordered `name` sources of the Py variant:
`(base_job.get('name'), _namespace_override.get('name'), _job.get('name'))`. -/
def namePartsPy (base ovr jd : Dict) : List (Option Value) :=
  [dget base "name", dget ovr "name", dget jd "name"]

/-- `kronjob.py`'s inner `_build_aggregate_job(job, namespace)`:
resolve the effective namespace, look up its override fragment, overlay
base < override < job, set the namespace, then recompute `name` and `env`. -/
def buildAggregateJobPy (base : Dict) (bns nsOV : Option Value)
    (job ns : Option Value) : Option Dict :=
  match jobDictOf job with
  | none => none
  | some jd =>
    match lookupOverride nsOV (effNamespace jd ns bns) with
    | none => none
    | some ovr =>
      match nameStep (nsSet (dupdate (dupdate base ovr) jd) (effNamespace jd ns bns))
          (namePartsPy base ovr jd) with
      | none => none
      | some agg2 => envStepPy agg2 base ovr jd

/-- A popped `jobs`/`namespaces` value as the list iterated by the cross
product; an absent value defaults to `[None]`.  A present non-list value is
embedded as a failure (the Python code would mis-iterate it and raise on
the first fragment). -/
def listOfVal : Option Value → Option (List (Option Value))
  | none => some [none]
  | some (.vlist l) => some (l.map some)
  | some _ => none

/-- `[(job, namespace) for job in jobs for namespace in namespaces]`:
outer loop over jobs, inner loop over namespaces. -/
def crossPairs : List (Option Value) → List (Option Value) → List (Option Value × Option Value)
  | [], _ => []
  | j :: rest, nsL => nsL.map (fun n => (j, n)) ++ crossPairs rest nsL

/-- The base record of the Py variant: the tree with the three
expansion-control keys popped. -/
def basePy (t : Dict) : Dict :=
  dpop (dpop (dpop t "jobs") "namespaces") "namespace_overrides"

/-- `kronjob.py`'s `_build_aggregate_jobs`: pop the expansion-control keys;
when both `jobs` and `namespaces` are absent, build a single record from the
original (unpopped!) tree as the job fragment; otherwise build the cross
product of jobs and namespaces. -/
def buildAggregateJobsPy (t : Dict) : Option (List Dict) :=
  match dget t "jobs", dget t "namespaces" with
  | none, none =>
    (buildAggregateJobPy (basePy t) (dget t "namespace") (dget t "namespace_overrides")
      (some (.vdict t)) none).map (fun r => [r])
  | jv, nv =>
    match listOfVal jv, listOfVal nv with
    | some jobsL, some nsL =>
      omapM
        (fun p => buildAggregateJobPy (basePy t) (dget t "namespace")
          (dget t "namespace_overrides") p.1 p.2)
        (crossPairs jobsL nsL)
    | _, _ => none

/-- `kronjob/_kronjob.py`'s inner `_build_aggregate_job(job)`: overlay the
job fragment on the base record, then recompute `name` and `env`. -/
def buildAggregateJobPkg (base : Dict) (job : Value) : Option Dict :=
  match job with
  | .vdict jd =>
    match nameStep (dupdate base jd) [dget base "name", dget jd "name"] with
    | none => none
    | some agg2 => envStepPkg agg2 base jd
  | _ => none

/-- `kronjob/_kronjob.py`'s `_build_aggregate_jobs`:
`jobs = base_job.pop('jobs', [{}])`, then one record per job fragment. -/
def buildAggregateJobsPkg (t : Dict) : Option (List Dict) :=
  match dget t "jobs" with
  | none => omapM (buildAggregateJobPkg (dpop t "jobs")) [Value.vdict []]
  | some (.vlist l) => omapM (buildAggregateJobPkg (dpop t "jobs")) l
  | some _ => none

/-- Split a character list at a separator, keeping empty chunks. -/
def splitOnChar (c : Char) : List Char → List (List Char)
  | [] => [[]]
  | ch :: rest =>
    if ch = c then [] :: splitOnChar c rest
    else
      match splitOnChar c rest with
      | [] => [[ch]]
      | f :: fs => (ch :: f) :: fs

/-- A non-empty run of decimal digits. -/
def isDigits (l : List Char) : Bool :=
  !l.isEmpty && l.all Char.isDigit

/-- Modelled from the spec: one base term of a cron field — `*`, a number,
or a `lo-hi` range (the concrete cron parser lives in the external
`crontab` dependency, not in this repository's sources). -/
def cronBase (f : List Char) : Bool :=
  f == ['*'] || isDigits f ||
    (match splitOnChar '-' f with
     | [a, b] => isDigits a && isDigits b
     | _ => false)

/-- Modelled from the spec: a cron list item, optionally with a `/step`
suffix. -/
def cronItem (f : List Char) : Bool :=
  match splitOnChar '/' f with
  | [b] => cronBase b
  | [b, st] => cronBase b && isDigits st
  | _ => false

/-- Modelled from the spec: a cron field is a comma-separated list of
items. -/
def cronField (f : List Char) : Bool :=
  (splitOnChar ',' f).all cronItem

/-- Modelled from the spec: a syntactically valid five/six-field cron
expression (standard cron grammar with `*`, ranges, lists and steps),
standing in for the external `crontab` library's validity check. -/
def cronIsValid (s : String) : Bool :=
  let fields := (splitOnChar ' ' s.toList).filter (fun f => !f.isEmpty)
  (fields.length == 5 || fields.length == 6) && fields.all cronField

/-- `job['schedule'] == 'once' or _cron_is_valid(job['schedule'])`: a
non-string schedule compares unequal to `'once'` and fails the cron parse. -/
def scheduleAccepted : Value → Bool
  | .vs s => s == "once" || cronIsValid s
  | _ => false

/-- `_REQUIRED_FIELDS` of `kronjob/_kronjob.py`. -/
def requiredFields : List String := ["name", "image", "schedule"]

/-- `_REQUIRED_FIELDS` of `kronjob.py`'s `_AbstractJobsSchema`. -/
def requiredPy : List String := ["name", "image", "namespace", "schedule"]

/-- `len(v)` for values that have a length; `none` raises `TypeError`. -/
def pyLen : Value → Option Nat
  | .vs s => some s.length
  | .vlist l => some l.length
  | .vdict d => some d.length
  | _ => none

/-- Message of `_validate_aggregate_job`'s required-field check. -/
def reqMsg : String := "each generated job must contain all of the required fields"

/-- Message of `_validate_aggregate_job`'s schedule check. -/
def schedMsg : String := "schedule must be either once or a valid cron schedule"

/-- Message of `_validate_aggregate_job`'s name-length check. -/
def lenMsg : String := "name must be less than 52 chars"

/-- The final check of `_validate_aggregate_job`:
`if len(job['name']) > 52: raise ...`.  The `KeyError`/`TypeError` arms
mirror Python's own exceptions on ill-formed records (unreachable after the
required-field check passes on well-typed records). -/
def nameLenCheck (job : Dict) : Except String Unit :=
  match dget job "name" with
  | none => .error "KeyError: name"
  | some nv =>
    match pyLen nv with
    | none => .error "TypeError: name has no len"
    | some n => if n > 52 then .error lenMsg else .ok ()

/-- `kronjob/_kronjob.py`'s `_validate_aggregate_job`: required fields,
then the schedule gate, then the name-length bound; the first failing check
raises. -/
def validateAggregateJob (job : Dict) : Except String Unit :=
  if requiredFields.all (fun k => dcontains job k) then
    match dget job "schedule" with
    | none => .error "KeyError: schedule"
    | some sv =>
      if scheduleAccepted sv then nameLenCheck job
      else .error schedMsg
  else .error reqMsg

/-- `for aggregate_job in aggregate_jobs: _validate_aggregate_job(aggregate_job)`:
stops at the first record that fails validation. -/
def validateAll : List Dict → Except String Unit
  | [] => .ok ()
  | j :: rest =>
    match validateAggregateJob j with
    | .error e => .error e
    | .ok _ => validateAll rest

/-- The validation error of one record, if any. -/
def errOf : Except String Unit → Option String
  | .error e => some e
  | .ok _ => none

/-- Every violation across a list of resolved records (one per violating
record, in record order). -/
def violationsOf (l : List Dict) : List String :=
  l.filterMap (fun j => errOf (validateAggregateJob j))

/-- `kronjob/_kronjob.py`'s `build_k8s_objects`, with the output modelled
as the validated aggregate records (the projection onto kubernetes model
objects, and the `jsonschema` structural pre-check whose `schema.json` is
not among the sources, are the spec's out-of-scope collaborators): aggregate,
validate every record, and only then produce output. -/
def buildK8sObjectsPkg (t : Dict) : Except String (List Dict) :=
  match buildAggregateJobsPkg t with
  | none => .error "TypeError"
  | some l =>
    match validateAll l with
    | .error e => .error e
    | .ok _ => .ok l

/-- Whether an aggregation call produced output. -/
def exceptIsOk : Except String (List Dict) → Bool
  | .ok _ => true
  | .error _ => false

/-- `kronjob.py`'s `_AbstractJobsSchema.validate_schema` required-key loop
on the root node: every aggregate record must contain all of
`name`, `image`, `namespace`, `schedule`. -/
def rootRequiredOkPy (t : Dict) : Option Bool :=
  (buildAggregateJobsPy t).map (fun l => l.all (fun j => requiredPy.all (fun k => dcontains j k)))

/-- A top-level abstract job with none of the keys `jobs`, `namespaces`,
`namespace_overrides` (the `test_top_level_job` scenario). -/
def c1Tree : Dict :=
  [("name", .vs "once"), ("image", .vs "example.com/base"),
   ("namespace", .vs "test"), ("schedule", .vs "once")]

/-- The record `kronjob.py` actually produces for `c1Tree`: its `name` is
the base name joined with itself. -/
def c1RecPy : Dict :=
  [("name", .vs "once-once"), ("image", .vs "example.com/base"),
   ("namespace", .vs "test"), ("schedule", .vs "once")]

/-- Abstract tree with `jobs` of length 2 and `namespaces` of length 2. -/
def c2Tree : Dict :=
  [("jobs", .vlist [.vdict [("name", .vs "a")], .vdict [("name", .vs "b")]]),
   ("namespaces", .vlist [.vs "n1", .vs "n2"])]

/-- The four records aggregated from `c2Tree`, outer-jobs/inner-namespaces. -/
def c2Recs : List Dict :=
  [[("name", .vs "a"), ("namespace", .vs "n1")],
   [("name", .vs "a"), ("namespace", .vs "n2")],
   [("name", .vs "b"), ("namespace", .vs "n1")],
   [("name", .vs "b"), ("namespace", .vs "n2")]]

/-- Base name `parent`, job fragment name `child`, no namespace override. -/
def c3Tree : Dict :=
  [("image", .vs "i"), ("name", .vs "parent"), ("schedule", .vs "once"),
   ("jobs", .vlist [.vdict [("name", .vs "child")]])]

/-- The single record aggregated from `c3Tree` (by either variant). -/
def c3Rec : Dict :=
  [("image", .vs "i"), ("name", .vs "parent-child"), ("schedule", .vs "once")]

/-- The spec's namespace-override precedence scenario: base schedule
`* * * * *`, override `{test: {schedule: once}}`, job fragment with no
schedule, resolved namespace `test`. -/
def c5Tree : Dict :=
  [("image", .vs "i"), ("name", .vs "p"), ("schedule", .vs "* * * * *"),
   ("namespace_overrides", .vdict [("test", .vdict [("schedule", .vs "once")])]),
   ("jobs", .vlist [.vdict [("name", .vs "c")]]),
   ("namespaces", .vlist [.vs "test"])]

/-- The single record aggregated from `c5Tree`: the override's schedule
wins over the base and the absent job-fragment schedule. -/
def c5Rec : Dict :=
  [("image", .vs "i"), ("name", .vs "p-c"), ("schedule", .vs "once"),
   ("namespace", .vs "test")]

/-- Witness inputs for the namespace-override precedence claim. -/
def c5WBase : Dict := [("schedule", .vs "* * * * *")]

/-- Witness `namespace_overrides` value for the precedence claim. -/
def c5WOverrides : Value := .vdict [("test", .vdict [("schedule", .vs "once")])]

/-- The override fragment looked up for namespace `test` in `c5WOverrides`. -/
def c5WOvr : Dict := [("schedule", .vs "once")]

/-- A tree whose single resolved record has `schedule: invalid-schedule`. -/
def c7BadTree : Dict :=
  [("jobs", .vlist [.vdict
    [("name", .vs "a"), ("image", .vs "i"), ("schedule", .vs "invalid-schedule")]])]

/-- A well-formed resolved record with a valid cron schedule. -/
def c7Job : Dict :=
  [("name", .vs "j"), ("image", .vs "i"), ("schedule", .vs "* * * * *")]

/-- A tree whose single resolved record misses `image` and `schedule`. -/
def c8Tree : Dict := [("jobs", .vlist [.vdict [("name", .vs "a")]])]

/-- The record aggregated from `c8Tree`. -/
def c8Rec : Dict := [("name", .vs "a")]

/-- A tree whose single resolved record has `name`, `image` and `schedule`
but no `namespace` anywhere — the Py-variant schema variant rejects it. -/
def c8PyTree : Dict :=
  [("jobs", .vlist [.vdict
    [("name", .vs "a"), ("image", .vs "i"), ("schedule", .vs "once")]])]

/-- Resolved record missing `image` (violates the required-field rule). -/
def c9Rec1 : Dict := [("name", .vs "a"), ("schedule", .vs "once")]

/-- Resolved record with an invalid schedule (violates the schedule rule). -/
def c9Rec2 : Dict :=
  [("name", .vs "b"), ("image", .vs "i"), ("schedule", .vs "invalid-schedule")]

/-- A tree that aggregates to two records with two distinct violations. -/
def c9Tree : Dict :=
  [("jobs", .vlist [.vdict [("name", .vs "a"), ("schedule", .vs "once")],
    .vdict [("name", .vs "b"), ("image", .vs "i"), ("schedule", .vs "invalid-schedule")]])]

/-- A schema-valid tree (no `jobs`, no `namespaces`) that carries a
`namespace_overrides` mapping. -/
def c10Tree : Dict :=
  [("name", .vs "a"), ("image", .vs "i"), ("schedule", .vs "once"),
   ("namespace", .vs "test"),
   ("namespace_overrides", .vdict [("other", .vdict [("name", .vs "o")])])]

/-- The record `kronjob.py` produces for `c10Tree`: the expansion-control
key `namespace_overrides` leaks into the output. -/
def c10Rec : Dict :=
  [("name", .vs "a-a"), ("image", .vs "i"), ("schedule", .vs "once"),
   ("namespace", .vs "test"),
   ("namespace_overrides", .vdict [("other", .vdict [("name", .vs "o")])])]

theorem oor_none_right {α : Type} (a : Option α) : oor a none = a := by
  cases a <;> rfl

theorem oor_eq_none {α : Type} (a b : Option α) :
    oor a b = none ↔ a = none ∧ b = none := by
  cases a <;> simp [oor]

theorem dget_append (l1 l2 : Dict) (k : String) :
    dget (l1 ++ l2) k = oor (dget l1 k) (dget l2 k) := by
  induction l1 with
  | nil => rfl
  | cons p rest ih =>
    obtain ⟨k1, v⟩ := p
    by_cases h : k1 = k
    · simp [dget, h, oor]
    · simp [dget, h, ih]

theorem dget_reverse_eq_none (l : Dict) (k : String) :
    dget l.reverse k = none ↔ dget l k = none := by
  induction l with
  | nil => simp
  | cons p rest ih =>
    obtain ⟨k1, v⟩ := p
    rw [List.reverse_cons, dget_append]
    by_cases h : k1 = k
    · simp [dget, h, oor_eq_none]
    · simp [dget, h, oor_eq_none, ih]

theorem dget_eq_none_of_not_mem (l : Dict) (k : String)
    (h : k ∉ l.map Prod.fst) : dget l k = none := by
  induction l with
  | nil => rfl
  | cons p rest ih =>
    obtain ⟨k1, v⟩ := p
    simp only [List.map_cons, List.mem_cons] at h
    push_neg at h
    have hne : ¬ k1 = k := fun he => h.1 he.symm
    simp [dget, hne, ih h.2]

theorem dget_dset (d : Dict) (k : String) (v : Value) (k2 : String) :
    dget (dset d k v) k2 = if k = k2 then some v else dget d k2 := by
  induction d with
  | nil => by_cases h : k = k2 <;> simp [dset, dget, h]
  | cons p rest ih =>
    obtain ⟨k1, v1⟩ := p
    by_cases h1 : k1 = k
    · subst h1
      by_cases h2 : k1 = k2 <;> simp [dset, dget, h2]
    · by_cases h2 : k1 = k2
      · subst h2
        have hk : ¬ k = k1 := fun he => h1 he.symm
        simp [dset, h1, dget, hk]
      · simp [dset, h1, dget, h2, ih]

theorem dget_dset_self (d : Dict) (k : String) (v : Value) :
    dget (dset d k v) k = some v := by
  simp [dget_dset]

theorem dget_dset_ne (d : Dict) (k : String) (v : Value) (k2 : String) (h : k ≠ k2) :
    dget (dset d k v) k2 = dget d k2 := by
  simp [dget_dset, h]

theorem dupdate_cons (d : Dict) (p : String × Value) (e : Dict) :
    dupdate d (p :: e) = dupdate (dset d p.1 p.2) e := rfl

theorem dget_dupdate (d e : Dict) (k : String) :
    dget (dupdate d e) k = oor (dget e.reverse k) (dget d k) := by
  induction e generalizing d with
  | nil => rfl
  | cons p rest ih =>
    obtain ⟨k1, v1⟩ := p
    rw [dupdate_cons, ih, List.reverse_cons, dget_append]
    cases hr : dget rest.reverse k with
    | some w => simp [oor]
    | none =>
      by_cases h : k1 = k <;> simp [dget, dget_dset, oor, h]

theorem dget_reverse_of_nodup (l : Dict) (h : (l.map Prod.fst).Nodup) (k : String) :
    dget l.reverse k = dget l k := by
  induction l with
  | nil => rfl
  | cons p rest ih =>
    obtain ⟨k1, v1⟩ := p
    simp only [List.map_cons, List.nodup_cons] at h
    rw [List.reverse_cons, dget_append]
    by_cases hk : k1 = k
    · subst hk
      have hrn : dget rest k1 = none := dget_eq_none_of_not_mem rest k1 h.1
      have hrv : dget rest.reverse k1 = none := (dget_reverse_eq_none rest k1).mpr hrn
      simp [hrv, oor, dget]
    · have h0 : dget [(k1, v1)] k = none := by simp [dget, hk]
      rw [h0, oor_none_right, ih h.2]
      simp [dget, hk]

theorem dcontains_reverse (l : Dict) (k : String) :
    dcontains l.reverse k = dcontains l k := by
  unfold dcontains
  by_cases h : dget l k = none
  · rw [h, (dget_reverse_eq_none l k).mpr h]
  · cases h2 : dget l.reverse k with
    | none => exact absurd ((dget_reverse_eq_none l k).mp h2) h
    | some w =>
      cases h3 : dget l k with
      | none => exact absurd h3 h
      | some w2 => rfl

theorem dcontains_dupdate (d e : Dict) (k : String) :
    dcontains (dupdate d e) k = (dcontains e k || dcontains d k) := by
  rw [← dcontains_reverse e k]
  unfold dcontains
  rw [dget_dupdate]
  cases dget e.reverse k <;> simp [oor]

theorem dcontains_dset_ne (d : Dict) (k : String) (v : Value) (k2 : String) (h : k ≠ k2) :
    dcontains (dset d k v) k2 = dcontains d k2 := by
  unfold dcontains
  rw [dget_dset_ne d k v k2 h]

theorem dget_nsSet_ne (agg : Dict) (e : Option Value) (k : String) (h : k ≠ "namespace") :
    dget (nsSet agg e) k = dget agg k := by
  cases e with
  | none => rfl
  | some v => exact dget_dset_ne agg "namespace" v k (fun he => h he.symm)

theorem dcontains_nsSet_ne (agg : Dict) (e : Option Value) (k : String) (h : k ≠ "namespace") :
    dcontains (nsSet agg e) k = dcontains agg k := by
  unfold dcontains
  rw [dget_nsSet_ne agg e k h]

theorem nameStep_dget_ne (agg : Dict) (parts : List (Option Value)) (agg2 : Dict) (k : String)
    (h : nameStep agg parts = some agg2) (hk : k ≠ "name") : dget agg2 k = dget agg k := by
  unfold nameStep at h
  cases hc : dcontains agg "name" <;> rw [hc] at h
  · simp at h
    rw [← h]
  · cases hj : joinNameParts parts <;> rw [hj] at h
    · simp at h
    · simp at h
      rw [← h, dget_dset_ne agg "name" _ k (fun he => hk he.symm)]

theorem envStepPy_dget_ne (agg base ovr jd : Dict) (agg2 : Dict) (k : String)
    (h : envStepPy agg base ovr jd = some agg2) (hk : k ≠ "env") : dget agg2 k = dget agg k := by
  unfold envStepPy at h
  cases hc : dcontains agg "env" <;> rw [hc] at h
  · simp at h
    rw [← h]
  · cases ha : envOf base <;> rw [ha] at h <;>
      cases hb : envOf ovr <;> rw [hb] at h <;>
      cases hcv : envOf jd <;> rw [hcv] at h <;> simp at h
    rw [← h, dget_dset_ne agg "env" _ k (fun he => hk he.symm)]

theorem envStepPkg_dget_ne (agg base jd : Dict) (agg2 : Dict) (k : String)
    (h : envStepPkg agg base jd = some agg2) (hk : k ≠ "env") : dget agg2 k = dget agg k := by
  unfold envStepPkg at h
  cases hc : dcontains agg "env" <;> rw [hc] at h
  · simp at h
    rw [← h]
  · cases ha : envOf base <;> rw [ha] at h <;>
      cases hcv : envOf jd <;> rw [hcv] at h <;> simp at h
    rw [← h, dget_dset_ne agg "env" _ k (fun he => hk he.symm)]

theorem omapM_length {α β : Type} (f : α → Option β) (xs : List α) (l : List β)
    (h : omapM f xs = some l) : l.length = xs.length := by
  induction xs generalizing l with
  | nil =>
    simp [omapM] at h
    simp [← h]
  | cons a rest ih =>
    unfold omapM at h
    cases hfa : f a <;> rw [hfa] at h
    · simp at h
    · cases hrest : omapM f rest <;> rw [hrest] at h
      · simp at h
      · simp at h
        rw [← h]
        simp [ih _ hrest]

theorem omapM_getElem {α β : Type} (f : α → Option β) (xs : List α) (l : List β)
    (h : omapM f xs = some l) (n : Nat) : l[n]? = (xs[n]?).bind f := by
  induction xs generalizing l n with
  | nil =>
    simp only [omapM, Option.some_inj] at h
    subst h
    simp
  | cons a rest ih =>
    unfold omapM at h
    cases hfa : f a <;> rw [hfa] at h
    · simp at h
    · cases hrest : omapM f rest <;> rw [hrest] at h
      · simp at h
      · simp at h
        cases n with
        | zero => simp [← h, hfa]
        | succ n2 => simp [← h, ih _ hrest n2]

theorem getElem_append_length_add {α : Type} (l1 l2 : List α) (k : Nat) :
    (l1 ++ l2)[l1.length + k]? = l2[k]? := by
  induction l1 with
  | nil => simp
  | cons a rest ih => simp [Nat.succ_add, ih]

theorem getElem_append_lt {α : Type} (l1 l2 : List α) (k : Nat) (h : k < l1.length) :
    (l1 ++ l2)[k]? = l1[k]? := by
  induction l1 generalizing k with
  | nil => cases h
  | cons a rest ih =>
    cases k with
    | zero => simp
    | succ k2 => simp [ih k2 (Nat.lt_of_succ_lt_succ h)]

theorem crossPairs_length (xs ys : List (Option Value)) :
    (crossPairs xs ys).length = xs.length * ys.length := by
  induction xs with
  | nil => simp [crossPairs]
  | cons j rest ih =>
    simp [crossPairs, ih, Nat.succ_mul, Nat.add_comm]

theorem crossPairs_getElem (xs ys : List (Option Value)) (i j : Nat)
    (hi : i < xs.length) (hj : j < ys.length) :
    (crossPairs xs ys)[i * ys.length + j]? = some (xs.get ⟨i, hi⟩, ys.get ⟨j, hj⟩) := by
  induction xs generalizing i with
  | nil => cases hi
  | cons a rest ih =>
    cases i with
    | zero =>
      rw [crossPairs, Nat.zero_mul, Nat.zero_add,
        getElem_append_lt _ _ j (by simpa using hj)]
      simp [List.getElem?_map, List.getElem?_eq_getElem hj]
    | succ i2 =>
      have harith : (i2 + 1) * ys.length + j = (ys.map (fun n => (a, n))).length + (i2 * ys.length + j) := by
        simp [Nat.succ_mul]
        omega
      rw [crossPairs, harith, getElem_append_length_add]
      exact ih i2 (Nat.lt_of_succ_lt_succ hi)

theorem validateAll_first_violation (l : List Dict) (e : String) (rest : List String)
    (h : violationsOf l = e :: rest) : validateAll l = .error e := by
  induction l generalizing e rest with
  | nil => simp [violationsOf] at h
  | cons j tl ih =>
    cases hv : validateAggregateJob j with
    | error e0 =>
      simp [violationsOf, List.filterMap_cons, hv, errOf] at h
      simp [validateAll, hv, h.1]
    | ok u =>
      simp only [violationsOf, List.filterMap_cons, hv, errOf] at h
      simp only [validateAll, hv]
      exact ih e rest h

theorem validateAll_error_of_mem (l : List Dict) (j : Dict) (e : String)
    (hm : j ∈ l) (hj : validateAggregateJob j = .error e) :
    ∃ e2, validateAll l = .error e2 := by
  induction l with
  | nil => cases hm
  | cons a tl ih =>
    cases hv : validateAggregateJob a with
    | error e0 => exact ⟨e0, by simp [validateAll, hv]⟩
    | ok u =>
      cases hm with
      | head =>
        rw [hj] at hv
        cases hv
      | tail _ hm2 =>
        obtain ⟨e2, he2⟩ := ih hm2
        exact ⟨e2, by simp [validateAll, hv, he2]⟩

/-- C1: for a tree with none of `jobs`/`namespaces`/`namespace_overrides`,
the package variant returns exactly one record equal to the base fields,
but `kronjob.py` passes the unpopped tree as the job fragment and returns a
record whose `name` is the base name joined with itself (`once-once`),
contradicting the claim (and the behaviour the repository's
`test_top_level_job` pins down for this scenario). -/
theorem single_record_base_fields_py_doubles_name :
    dget c1Tree "jobs" = none ∧
    dget c1Tree "namespaces" = none ∧
    dget c1Tree "namespace_overrides" = none ∧
    buildAggregateJobsPkg c1Tree = some [c1Tree] ∧
    buildAggregateJobsPy c1Tree = some [c1RecPy] ∧
    dget c1Tree "name" = some (.vs "once") ∧
    dget c1RecPy "name" = some (.vs "once-once") :=
  ⟨rfl, rfl, rfl, rfl, rfl, rfl, rfl⟩

/-- C10: on the schema-valid input `c10Tree` (no `jobs`, no `namespaces`,
with a `namespaceOverrides` mapping), `kronjob.py` returns a single record
that still contains the expansion-control key `namespace_overrides`,
contradicting the claim that no output record contains any expansion key. -/
theorem py_output_record_leaks_namespace_overrides :
    dget c10Tree "jobs" = none ∧
    dget c10Tree "namespaces" = none ∧
    buildAggregateJobsPy c10Tree = some [c10Rec] ∧
    dcontains c10Rec "namespace_overrides" = true :=
  ⟨rfl, rfl, rfl, rfl⟩

/-- C9 (counterexample): two resolved records with two distinct violations
(`c9Rec1` misses `image`, `c9Rec2` has an invalid schedule); validation
reports only the first violation, not an aggregate of all of them. -/
theorem validation_reports_only_first_violation :
    validateAll [c9Rec1, c9Rec2] = .error reqMsg ∧
    violationsOf [c9Rec1, c9Rec2] = [reqMsg, schedMsg] ∧
    reqMsg ≠ schedMsg :=
  ⟨rfl, rfl, by decide⟩

/-- C9 (amended): validation failure is fatal to the whole aggregation
call — no output records are produced — but it is reported as a single
error carrying only the first violation encountered across the resolved
records, not a list of every violation. -/
theorem validation_failure_reports_first_violation (t : Dict) (l : List Dict)
    (e : String) (rest : List String)
    (hagg : buildAggregateJobsPkg t = some l)
    (h : violationsOf l = e :: rest) :
    buildK8sObjectsPkg t = .error e := by
  simp only [buildK8sObjectsPkg, hagg, validateAll_first_violation l e rest h]

/-- Witness for the amended C9 theorem at the concrete tree `c9Tree`. -/
theorem validation_failure_reports_first_violation_witness :
    buildK8sObjectsPkg c9Tree = .error reqMsg :=
  validation_failure_reports_first_violation c9Tree [c9Rec1, c9Rec2] reqMsg [schedMsg] rfl rfl

/-- C8: whenever some resolved record of the package variant is missing a
required field (`name`, `image`, `schedule`), validation fails for that
record and the whole `build_k8s_objects` call fails, producing no output
records; additionally, in the Py variant (whose required list also
contains `namespace`), the root-schema required-key check rejects the
concrete tree `c8PyTree` whose single record has no namespace. -/
theorem missing_required_field_fails_whole_call (t : Dict) (l : List Dict) (j : Dict)
    (hagg : buildAggregateJobsPkg t = some l) (hm : j ∈ l)
    (hmiss : requiredFields.all (fun k => dcontains j k) = false) :
    exceptIsOk (buildK8sObjectsPkg t) = false ∧
    rootRequiredOkPy c8PyTree = some false := by
  refine ⟨?_, rfl⟩
  have hj : validateAggregateJob j = .error reqMsg := by
    simp only [validateAggregateJob, hmiss]
    rfl
  obtain ⟨e2, he2⟩ := validateAll_error_of_mem l j reqMsg hm hj
  simp only [buildK8sObjectsPkg, hagg, he2, exceptIsOk]

/-- Witness for the C8 theorem at the concrete tree `c8Tree`, whose single
resolved record `c8Rec` is missing `image` and `schedule`. -/
theorem missing_required_field_fails_whole_call_witness :
    exceptIsOk (buildK8sObjectsPkg c8Tree) = false ∧
    rootRequiredOkPy c8PyTree = some false :=
  missing_required_field_fails_whole_call c8Tree [c8Rec] c8Rec rfl (List.Mem.head _) rfl

theorem nameLenCheck_ne_schedMsg (job : Dict) : nameLenCheck job ≠ .error schedMsg := by
  intro hx
  unfold nameLenCheck at hx
  split at hx
  · exact absurd (Except.error.inj hx) (by decide)
  · split at hx
    · exact absurd (Except.error.inj hx) (by decide)
    · split at hx
      · exact absurd (Except.error.inj hx) (by decide)
      · cases hx

/-- C7: on any record containing the required fields, validation accepts
the `schedule` field iff it is the literal `once` or passes the cron
validity check (`scheduleAccepted`); `* * * * *` is accepted,
`invalid-schedule` is not, and the concrete tree `c7BadTree` with schedule
`invalid-schedule` makes the whole aggregation call fail. -/
theorem schedule_gate_once_or_cron (job : Dict) (v : Value)
    (hreq : requiredFields.all (fun k => dcontains job k) = true)
    (hs : dget job "schedule" = some v) :
    ((validateAggregateJob job = .error schedMsg) ↔ scheduleAccepted v = false) ∧
    scheduleAccepted (.vs "* * * * *") = true ∧
    scheduleAccepted (.vs "invalid-schedule") = false ∧
    scheduleAccepted (.vs "once") = true ∧
    exceptIsOk (buildK8sObjectsPkg c7BadTree) = false := by
  refine ⟨?_, rfl, rfl, rfl, rfl⟩
  simp only [validateAggregateJob, hreq, hs, if_true]
  cases hacc : scheduleAccepted v with
  | false => simp
  | true =>
    simp only [if_true]
    simp [nameLenCheck_ne_schedMsg job]

/-- Witness for the C7 theorem at the concrete record `c7Job`, whose
schedule `* * * * *` is a valid cron expression. -/
theorem schedule_gate_once_or_cron_witness :
    ((validateAggregateJob c7Job = .error schedMsg) ↔
      scheduleAccepted (.vs "* * * * *") = false) ∧
    scheduleAccepted (.vs "* * * * *") = true ∧
    scheduleAccepted (.vs "invalid-schedule") = false ∧
    scheduleAccepted (.vs "once") = true ∧
    exceptIsOk (buildK8sObjectsPkg c7BadTree) = false :=
  schedule_gate_once_or_cron c7Job (.vs "* * * * *") rfl rfl

theorem buildPy_destruct (base : Dict) (bns nsOV ns : Option Value) (jd agg : Dict)
    (h : buildAggregateJobPy base bns nsOV (some (.vdict jd)) ns = some agg) :
    ∃ ovr agg2,
      lookupOverride nsOV (effNamespace jd ns bns) = some ovr ∧
      nameStep (nsSet (dupdate (dupdate base ovr) jd) (effNamespace jd ns bns))
        (namePartsPy base ovr jd) = some agg2 ∧
      envStepPy agg2 base ovr jd = some agg := by
  unfold buildAggregateJobPy at h
  simp only [jobDictOf] at h
  split at h
  · exact Option.noConfusion h
  · rename_i ovr hovr
    split at h
    · exact Option.noConfusion h
    · rename_i agg2 hns
      exact ⟨ovr, agg2, hovr, hns, h⟩

theorem lookupOverride_none_eff (nsOV : Option Value) (ovr : Dict)
    (hovr : lookupOverride nsOV none = some ovr) : ovr = [] := by
  cases nsOV with
  | none =>
    simp only [lookupOverride, lookupIn] at hovr
    exact (Option.some.inj hovr).symm
  | some w =>
    cases w with
    | vdict d =>
      simp only [lookupOverride, lookupIn] at hovr
      exact (Option.some.inj hovr).symm
    | vs s =>
      simp only [lookupOverride] at hovr
      exact Option.noConfusion hovr
    | vi n =>
      simp only [lookupOverride] at hovr
      exact Option.noConfusion hovr
    | vb b =>
      simp only [lookupOverride] at hovr
      exact Option.noConfusion hovr
    | vlist l =>
      simp only [lookupOverride] at hovr
      exact Option.noConfusion hovr

/-- C6: the effective namespace of a (job fragment, namespace) pair is the
job fragment's own `namespace` field, else the pair's namespace, else the
base record's `namespace` field, else absent — and whenever the record is
produced, its `namespace` field equals exactly that resolution (it is set
on the merged record, overriding any inherited value). -/
theorem effective_namespace_precedence (base : Dict) (bns nsOV ns : Option Value)
    (jd agg : Dict)
    (h : buildAggregateJobPy base bns nsOV (some (.vdict jd)) ns = some agg)
    (hb : dget base "namespace" = bns) :
    dget agg "namespace" = oor (dget jd "namespace") (oor ns bns) := by
  obtain ⟨ovr, agg2, hovr, hns, henv⟩ := buildPy_destruct base bns nsOV ns jd agg h
  have e1 := envStepPy_dget_ne agg2 base ovr jd agg "namespace" henv (by decide)
  have e2 := nameStep_dget_ne _ _ agg2 "namespace" hns (by decide)
  rw [e1, e2]
  cases heff : effNamespace jd ns bns with
  | some v =>
    rw [show oor (dget jd "namespace") (oor ns bns) = effNamespace jd ns bns from rfl, heff]
    simp [nsSet, dget_dset_self]
  | none =>
    have heq2 : oor (dget jd "namespace") (oor ns bns) = none := by
      rw [show oor (dget jd "namespace") (oor ns bns) = effNamespace jd ns bns from rfl]
      exact heff
    obtain ⟨h1, h23⟩ := (oor_eq_none _ _).mp heq2
    obtain ⟨h2, h3⟩ := (oor_eq_none _ _).mp h23
    rw [heff] at hovr
    have hovr0 : ovr = [] := lookupOverride_none_eff nsOV ovr hovr
    subst hovr0
    have hrev : dget jd.reverse "namespace" = none := (dget_reverse_eq_none jd "namespace").mpr h1
    rw [h1, h2, h3]
    simp only [nsSet]
    rw [dget_dupdate, hrev]
    show oor none (dget base "namespace") = oor none (oor none none)
    rw [hb, h3]
    rfl

/-- Witness for the C6 theorem: job fragment without a namespace, pair
namespace `n`, base namespace `b` — the pair namespace wins and is set on
the record. -/
theorem effective_namespace_precedence_witness :
    dget [("namespace", Value.vs "n")] "namespace" =
      oor (dget ([] : Dict) "namespace") (oor (some (Value.vs "n")) (some (Value.vs "b"))) :=
  effective_namespace_precedence [("namespace", .vs "b")] (some (.vs "b")) none
    (some (.vs "n")) [] [("namespace", .vs "n")] rfl rfl

theorem chain_contains (base ovr jd : Dict) (eff : Option Value) (k : String)
    (hk : k ≠ "namespace")
    (hchain : (dcontains base k || dcontains ovr k || dcontains jd k) = true) :
    dcontains (nsSet (dupdate (dupdate base ovr) jd) eff) k = true := by
  rw [dcontains_nsSet_ne _ _ _ hk, dcontains_dupdate, dcontains_dupdate]
  cases hb : dcontains base k <;> cases ho : dcontains ovr k <;>
    cases hj : dcontains jd k <;> simp_all

/-- C5: for every field other than `name`, `env` and the specially-resolved
`namespace`, the merged record is the base record overlaid by the
namespace-override fragment overlaid by the job fragment, later overlays
winning, and an absent field in the job fragment never overrides the
namespace-override value; in particular, in the spec's concrete scenario
(`c5Tree`) the namespace override's `schedule: once` beats the base
schedule and the job fragment (which has no schedule) does not override it. -/
theorem scalar_override_precedence (base : Dict) (bns nsOV ns : Option Value)
    (jd ovr agg : Dict) (k : String)
    (h : buildAggregateJobPy base bns nsOV (some (.vdict jd)) ns = some agg)
    (hovr : lookupOverride nsOV (effNamespace jd ns bns) = some ovr)
    (hk1 : k ≠ "name") (hk2 : k ≠ "env") (hk3 : k ≠ "namespace")
    (hnj : (jd.map Prod.fst).Nodup) (hno : (ovr.map Prod.fst).Nodup) :
    (∀ k2, dget (dupdate (dupdate base ovr) jd) k2 =
      oor (dget jd k2) (oor (dget ovr k2) (dget base k2))) ∧
    dget agg k = oor (dget jd k) (oor (dget ovr k) (dget base k)) ∧
    buildAggregateJobsPy c5Tree = some [c5Rec] ∧
    dget c5Rec "schedule" = some (.vs "once") := by
  refine ⟨?_, ?_, rfl, rfl⟩
  · intro k2
    rw [dget_dupdate, dget_dupdate,
      dget_reverse_of_nodup jd hnj, dget_reverse_of_nodup ovr hno]
  · obtain ⟨ovr2, agg2, hovr2, hns, henv⟩ := buildPy_destruct base bns nsOV ns jd agg h
    rw [hovr] at hovr2
    obtain rfl := Option.some.inj hovr2
    have e1 := envStepPy_dget_ne agg2 base ovr jd agg k henv hk2
    have e2 := nameStep_dget_ne _ _ agg2 k hns hk1
    rw [e1, e2, dget_nsSet_ne _ _ k hk3, dget_dupdate, dget_dupdate,
      dget_reverse_of_nodup jd hnj, dget_reverse_of_nodup ovr hno]

/-- Witness for the C5 theorem: base schedule `* * * * *`, override
fragment `{schedule: once}` for the resolved namespace `test`, empty job
fragment — the record's schedule is the override's `once`. -/
theorem scalar_override_precedence_witness :
    dget (dupdate (dupdate c5WBase c5WOvr) ([] : Dict)) "schedule" =
      oor (dget ([] : Dict) "schedule") (oor (dget c5WOvr "schedule") (dget c5WBase "schedule")) ∧
    dget [("schedule", Value.vs "once"), ("namespace", Value.vs "test")] "schedule" =
      oor (dget ([] : Dict) "schedule") (oor (dget c5WOvr "schedule") (dget c5WBase "schedule")) ∧
    buildAggregateJobsPy c5Tree = some [c5Rec] ∧
    dget c5Rec "schedule" = some (.vs "once") := by
  have h := scalar_override_precedence c5WBase none (some c5WOverrides) (some (.vs "test"))
    [] c5WOvr [("schedule", Value.vs "once"), ("namespace", Value.vs "test")] "schedule"
    rfl rfl (by decide) (by decide) (by decide) (by simp) (by simp [c5WOvr])
  exact ⟨h.1 "schedule", h.2.1, h.2.2.1, h.2.2.2⟩

/-- C4: whenever the merge chain of a (job fragment, namespace) pair
contains `env` anywhere, the resolved record's `env` is the concatenation
(base env) ++ (namespace-override env) ++ (job env), each missing side
defaulting to the empty list, order preserved, with no deduplication and
no wholesale override. -/
theorem env_concatenation (base : Dict) (bns nsOV ns : Option Value)
    (jd ovr agg : Dict) (a b c : List Value)
    (h : buildAggregateJobPy base bns nsOV (some (.vdict jd)) ns = some agg)
    (hovr : lookupOverride nsOV (effNamespace jd ns bns) = some ovr)
    (hchain : (dcontains base "env" || dcontains ovr "env" || dcontains jd "env") = true)
    (ha : envOf base = some a) (hb2 : envOf ovr = some b) (hc : envOf jd = some c) :
    dget agg "env" = some (.vlist (a ++ b ++ c)) := by
  obtain ⟨ovr2, agg2, hovr2, hns, henv⟩ := buildPy_destruct base bns nsOV ns jd agg h
  rw [hovr] at hovr2
  obtain rfl := Option.some.inj hovr2
  have hcont1 := chain_contains base ovr jd (effNamespace jd ns bns) "env" (by decide) hchain
  have hcont2 : dcontains agg2 "env" = true := by
    unfold dcontains
    rw [nameStep_dget_ne _ _ agg2 "env" hns (by decide)]
    exact hcont1
  unfold envStepPy at henv
  rw [hcont2, ha, hb2, hc] at henv
  simp only [if_true] at henv
  obtain rfl := Option.some.inj henv
  exact dget_dset_self agg2 "env" _

/-- Witness for the C4 theorem: base `env=[A]`, override `env=[B]` for the
resolved namespace `t`, job `env=[C]` — the record's env is `[A, B, C]`. -/
theorem env_concatenation_witness :
    dget [("env", Value.vlist [.vs "A", .vs "B", .vs "C"]), ("namespace", Value.vs "t")] "env" =
      some (.vlist [Value.vs "A", Value.vs "B", Value.vs "C"]) :=
  env_concatenation [("env", .vlist [.vs "A"])] none
    (some (.vdict [("t", .vdict [("env", .vlist [.vs "B"])])])) (some (.vs "t"))
    [("env", .vlist [.vs "C"])] [("env", .vlist [.vs "B"])]
    [("env", Value.vlist [.vs "A", .vs "B", .vs "C"]), ("namespace", Value.vs "t")]
    [.vs "A"] [.vs "B"] [.vs "C"] rfl rfl rfl rfl rfl rfl

/-- C3: whenever the merge chain of a (job fragment, namespace) pair
contains `name` anywhere, the resolved record's `name` is the `-`-joined
concatenation of the truthy values among (base name, namespace-override
name, job name), in that fixed order; in particular both variants resolve
base name `parent` with job name `child` and no override to
`parent-child`. -/
theorem name_concatenation (base : Dict) (bns nsOV ns : Option Value)
    (jd ovr agg : Dict) (strs : List String)
    (h : buildAggregateJobPy base bns nsOV (some (.vdict jd)) ns = some agg)
    (hovr : lookupOverride nsOV (effNamespace jd ns bns) = some ovr)
    (hchain : (dcontains base "name" || dcontains ovr "name" || dcontains jd "name") = true)
    (hstrs : omapM toStr (keptParts (namePartsPy base ovr jd)) = some strs) :
    dget agg "name" = some (.vs (String.intercalate "-" strs)) ∧
    buildAggregateJobsPy c3Tree = some [c3Rec] ∧
    buildAggregateJobsPkg c3Tree = some [c3Rec] ∧
    dget c3Rec "name" = some (.vs "parent-child") := by
  refine ⟨?_, rfl, rfl, rfl⟩
  obtain ⟨ovr2, agg2, hovr2, hns, henv⟩ := buildPy_destruct base bns nsOV ns jd agg h
  rw [hovr] at hovr2
  obtain rfl := Option.some.inj hovr2
  have hcont := chain_contains base ovr jd (effNamespace jd ns bns) "name" (by decide) hchain
  unfold nameStep at hns
  rw [hcont] at hns
  simp only [if_true] at hns
  unfold joinNameParts at hns
  rw [hstrs] at hns
  simp only [Option.some.injEq] at hns
  have e1 := envStepPy_dget_ne agg2 base ovr jd agg "name" henv (by decide)
  rw [e1, ← hns]
  exact dget_dset_self _ "name" _

/-- Witness for the C3 theorem: base name `parent`, job fragment name
`child`, no namespace override — the record's name is `parent-child`. -/
theorem name_concatenation_witness :
    dget [("name", Value.vs "parent-child")] "name" =
      some (.vs (String.intercalate "-" ["parent", "child"])) ∧
    buildAggregateJobsPy c3Tree = some [c3Rec] ∧
    buildAggregateJobsPkg c3Tree = some [c3Rec] ∧
    dget c3Rec "name" = some (.vs "parent-child") :=
  name_concatenation [("name", .vs "parent")] none none none
    [("name", .vs "child")] [] [("name", Value.vs "parent-child")] ["parent", "child"]
    rfl rfl rfl rfl

theorem crossPairs_map_getElem (js ns : List Value) (i j : Nat)
    (hi : i < js.length) (hj : j < ns.length) :
    (crossPairs (js.map some) (ns.map some))[i * ns.length + j]? =
      some (some (js.get ⟨i, hi⟩), some (ns.get ⟨j, hj⟩)) := by
  induction js generalizing i with
  | nil => cases hi
  | cons a rest ih =>
    cases i with
    | zero =>
      rw [List.map_cons, crossPairs, Nat.zero_mul, Nat.zero_add,
        getElem_append_lt _ _ j (by simpa using hj), List.map_map]
      simp [List.getElem?_map, List.getElem?_eq_getElem hj]
    | succ i2 =>
      rw [List.map_cons, crossPairs]
      have harith : (i2 + 1) * ns.length + j =
          ((ns.map some).map (fun n => (some a, n))).length + (i2 * ns.length + j) := by
        simp [Nat.succ_mul]
        omega
      rw [harith, getElem_append_length_add]
      exact ih i2 (Nat.lt_of_succ_lt_succ hi)

/-- C2: for a tree whose `jobs` has length J and whose `namespaces` has
length N, every successful aggregation returns exactly J×N records, and the
record at position i×N+j is built from the i-th job fragment and the j-th
namespace — the outer loop runs over `jobs` in input order, the inner loop
over `namespaces` in input order. -/
theorem aggregation_cross_product (t : Dict) (js ns : List Value) (l : List Dict)
    (hj : dget t "jobs" = some (.vlist js))
    (hn : dget t "namespaces" = some (.vlist ns))
    (h : buildAggregateJobsPy t = some l) :
    l.length = js.length * ns.length ∧
    ∀ i j, (hi : i < js.length) → (hj2 : j < ns.length) →
      buildAggregateJobPy (basePy t) (dget t "namespace") (dget t "namespace_overrides")
        (some (js.get ⟨i, hi⟩)) (some (ns.get ⟨j, hj2⟩)) = l[i * ns.length + j]? := by
  unfold buildAggregateJobsPy at h
  rw [hj, hn] at h
  simp only [listOfVal] at h
  refine ⟨?_, ?_⟩
  · have hlen := omapM_length _ _ _ h
    rw [crossPairs_length, List.length_map, List.length_map] at hlen
    exact hlen
  · intro i j hi hj2
    have hg := omapM_getElem _ _ _ h (i * ns.length + j)
    rw [hg, crossPairs_map_getElem js ns i j hi hj2]
    rfl

/-- Witness for the C2 theorem at `c2Tree` (2 jobs × 2 namespaces): four
records, and the record at index 0×2+1 comes from job 0 and namespace 1. -/
theorem aggregation_cross_product_witness :
    c2Recs.length = 2 * 2 ∧
    buildAggregateJobPy (basePy c2Tree) (dget c2Tree "namespace")
      (dget c2Tree "namespace_overrides")
      (some (.vdict [("name", .vs "a")])) (some (.vs "n2")) = c2Recs[0 * 2 + 1]? := by
  have h := aggregation_cross_product c2Tree
    [.vdict [("name", .vs "a")], .vdict [("name", .vs "b")]]
    [.vs "n1", .vs "n2"] c2Recs rfl rfl rfl
  exact ⟨h.1, h.2 0 1 (by decide) (by decide)⟩
